import Mathlib

/-!
Verification of the nViz TIFF-stack conversion pipelines.

This file gives a shallow embedding of the grouping / stack-assembly /
metadata logic of the repository:

* `src/gff3d_utils/view.py` — filename slice-index decoder and
  ScanInfo.xml scaling reader;
* `src/nviz/image.py` — `tiff_to_zarr` and `tiff_to_ometiff`;
* `src/raw_organoid_images_to_omezarr/tiff_to_ometiff.py` — the script
  variant with `verify_ome_tiff`.

External imaging libraries (tifffile, zarr, ome-zarr, numpy codecs) are
modelled through their narrow interfaces: reading a TIFF path yields the
file's array, writing an array into a zarr group with `scaler=None`
produces a single dataset at path "0".  Pixel samples are modelled as
naturals; `astype(np.uint16)` reduces them modulo 2^16.
-/

namespace NViz

open scoped List

/-! ### Pixel data model -/

/-- A 2D image plane (rows of pixel values), as returned by `tiff.imread`. -/
abbrev Img2 := List (List Nat)

/-- A 3D volume: a list of Z planes. -/
abbrev Vol3 := List Img2

/-- `astype(np.uint16)` on one sample: reduce modulo 2^16. -/
def u16 (n : Nat) : Nat := n % 65536

def castImg2 (p : Img2) : Img2 := p.map (fun row => row.map u16)

def castVol3 (v : Vol3) : Vol3 := v.map castImg2

/-- The (Z, Y, X) shape of a volume, reading each extent from the first
element the way a rectangular numpy array reports its `shape`. -/
def vol3_shape (v : Vol3) : Nat × Nat × Nat :=
  (v.length, (v.headD []).length, ((v.headD []).headD []).length)

/-! ### Filename decoder

Embeds `extract_z_slice_number_from_filename` from `gff3d_utils/view.py`
(the same function is imported as `nviz.meta.extract_z_slice_number_from_filename`
by `nviz/image.py`): `re.search(r"_ZS(\d+)_", filename)`, returning the parsed
group as an integer and 0 when there is no match.  `re.search` returns the
match at the leftmost possible start position; at a given position the
pattern matches iff the text reads underscore, Z, S, a maximal nonempty run
of digits, then an underscore. -/

/-- Numeric value of a digit string; leading zeros are ignored by construction. -/
def digitsToNat (ds : List Char) : Nat :=
  ds.foldl (fun a c => 10 * a + (c.toNat - 48)) 0

/-- Attempt to match `_ZS(\d+)_` starting exactly at the head of `cs`:
the greedy digit run after `_ZS` must be nonempty and followed by `_`. -/
def matchZSAt : List Char → Option Nat
  | c1 :: c2 :: c3 :: rest =>
    if c1 = '_' ∧ c2 = 'Z' ∧ c3 = 'S' then
      if rest.takeWhile Char.isDigit ≠ [] ∧
          (rest.drop (rest.takeWhile Char.isDigit).length).head? = some '_' then
        some (digitsToNat (rest.takeWhile Char.isDigit))
      else none
    else none
  | _ => none

/-- `re.search`: try each start position left to right. -/
def searchZS : List Char → Option Nat
  | [] => none
  | c :: cs =>
    match matchZSAt (c :: cs) with
    | some n => some n
    | none => searchZS cs

def extract_z_slice_number_from_filename (s : String) : Nat :=
  (searchZS s.data).getD 0

/-- All characters are decimal digits. -/
def IsDigits (ds : List Char) : Prop := ∀ c ∈ ds, c.isDigit = true

/-- The filename contains a well-formed `_ZS<digits>_` marker somewhere. -/
def HasMarker (cs : List Char) : Prop :=
  ∃ pre ds post, cs = pre ++ '_' :: 'Z' :: 'S' :: (ds ++ '_' :: post) ∧
    ds ≠ [] ∧ IsDigits ds

theorem takeWhile_digits_append (ds post : List Char) (hds : IsDigits ds) :
    (ds ++ '_' :: post).takeWhile Char.isDigit = ds := by
  induction ds with
  | nil => simp [List.takeWhile]
  | cons c cs ih =>
    have hc : c.isDigit = true := hds c (by simp)
    have hcs : IsDigits cs := fun d hd => hds d (by simp [hd])
    simp [List.takeWhile, hc, ih hcs]

theorem drop_takeWhile_length (rest : List Char) :
    rest.drop (rest.takeWhile Char.isDigit).length = rest.dropWhile Char.isDigit := by
  have h := List.drop_left (rest.takeWhile Char.isDigit) (rest.dropWhile Char.isDigit)
  rwa [List.takeWhile_append_dropWhile] at h

theorem matchZSAt_marker (ds post : List Char) (hne : ds ≠ []) (hds : IsDigits ds) :
    matchZSAt ('_' :: 'Z' :: 'S' :: (ds ++ '_' :: post)) = some (digitsToNat ds) := by
  have htake := takeWhile_digits_append ds post hds
  have hdrop : (ds ++ '_' :: post).drop ds.length = '_' :: post := List.drop_left _ _
  simp only [matchZSAt, htake, hdrop]
  simp [hne]

theorem matchZSAt_some (cs : List Char) (k : Nat) (h : matchZSAt cs = some k) :
    ∃ ds post, cs = '_' :: 'Z' :: 'S' :: (ds ++ '_' :: post) ∧
      ds ≠ [] ∧ IsDigits ds ∧ digitsToNat ds = k := by
  match cs with
  | [] => simp [matchZSAt] at h
  | [c1] => simp [matchZSAt] at h
  | [c1, c2] => simp [matchZSAt] at h
  | c1 :: c2 :: c3 :: rest =>
    simp only [matchZSAt] at h
    split at h
    next hc =>
      obtain ⟨h1, h2, h3⟩ := hc
      subst h1; subst h2; subst h3
      split at h
      next hcond =>
        obtain ⟨hne, hhead⟩ := hcond
        rw [drop_takeWhile_length] at hhead
        cases hdwe : rest.dropWhile Char.isDigit with
        | nil => rw [hdwe] at hhead; cases hhead
        | cons a tl =>
          rw [hdwe] at hhead
          simp only [List.head?_cons, Option.some.injEq] at hhead
          subst hhead
          refine ⟨rest.takeWhile Char.isDigit, tl, ?_, hne,
            fun c hc => List.mem_takeWhile_imp hc, ?_⟩
          · conv_lhs => rw [← List.takeWhile_append_dropWhile Char.isDigit rest]
            rw [hdwe]
          · exact Option.some.inj h
      next => cases h
    next => cases h

theorem searchZS_some (cs : List Char) (k : Nat) (h : searchZS cs = some k) :
    ∃ pre ds post, cs = pre ++ '_' :: 'Z' :: 'S' :: (ds ++ '_' :: post) ∧
      ds ≠ [] ∧ IsDigits ds ∧ digitsToNat ds = k := by
  induction cs with
  | nil => simp [searchZS] at h
  | cons c cs ih =>
    rw [searchZS] at h
    cases hm : matchZSAt (c :: cs) with
    | some n =>
      simp only [hm] at h
      obtain ⟨ds, post, hshape, hne, hds, hval⟩ := matchZSAt_some _ _ hm
      exact ⟨[], ds, post, by rw [List.nil_append, hshape], hne, hds,
        by rw [hval]; exact Option.some.inj h⟩
    | none =>
      simp only [hm] at h
      obtain ⟨pre, ds, post, hshape, hne, hds, hval⟩ := ih h
      exact ⟨c :: pre, ds, post, by rw [List.cons_append, hshape], hne, hds, hval⟩

theorem searchZS_isSome_of_marker (cs : List Char) (h : HasMarker cs) :
    (searchZS cs).isSome = true := by
  obtain ⟨pre, ds, post, hshape, hne, hds⟩ := h
  subst hshape
  induction pre with
  | nil =>
    rw [List.nil_append, searchZS]
    simp [matchZSAt_marker ds post hne hds]
  | cons c pre ih =>
    rw [List.cons_append, searchZS]
    cases hm : matchZSAt (c :: (pre ++ '_' :: 'Z' :: 'S' :: (ds ++ '_' :: post))) with
    | some n => simp [hm]
    | none => simp only [hm]; exact ih

theorem hasMarker_iff (cs : List Char) : HasMarker cs ↔ (searchZS cs).isSome = true := by
  constructor
  · exact searchZS_isSome_of_marker cs
  · intro h
    cases hs : searchZS cs with
    | none => rw [hs] at h; cases h
    | some k =>
      obtain ⟨pre, ds, post, hshape, hne, hds, _⟩ := searchZS_some cs k hs
      exact ⟨pre, ds, post, hshape, hne, hds⟩

instance (ds : List Char) : Decidable (IsDigits ds) :=
  inferInstanceAs (Decidable (∀ c ∈ ds, c.isDigit = true))

/-- **C4.** For every filename string containing a substring matching
underscore, literal "ZS", one or more decimal digits, underscore, the
slice-index decoder returns exactly the integer of such a well-formed
marker, with leading zeros ignored (the numeric value of the digit run);
for every filename lacking such a well-formed marker (absent entirely, or
an underscore-ZS-underscore with no digits, i.e. no `HasMarker`
decomposition), it returns 0, and it is a total function so no error is
raised. -/
theorem c4_slice_index_decoder (s : String) :
    (HasMarker s.data →
      ∃ pre ds post, s.data = pre ++ '_' :: 'Z' :: 'S' :: (ds ++ '_' :: post) ∧
        ds ≠ [] ∧ IsDigits ds ∧
        extract_z_slice_number_from_filename s = digitsToNat ds) ∧
    (¬ HasMarker s.data → extract_z_slice_number_from_filename s = 0) := by
  constructor
  · intro h
    have hsome := searchZS_isSome_of_marker s.data h
    cases hs : searchZS s.data with
    | none => rw [hs] at hsome; cases hsome
    | some k =>
      obtain ⟨pre, ds, post, hshape, hne, hds, hval⟩ := searchZS_some s.data k hs
      refine ⟨pre, ds, post, hshape, hne, hds, ?_⟩
      simp only [extract_z_slice_number_from_filename, hs, hval, Option.getD_some]
  · intro h
    have hnone : searchZS s.data = none := by
      cases hs : searchZS s.data with
      | none => rfl
      | some k => exact absurd ((hasMarker_iff s.data).mpr (by rw [hs]; rfl)) h
    simp only [extract_z_slice_number_from_filename, hnone, Option.getD_none]

/-- Witness for C4 at the concrete filenames from the repository's tests:
`C10-1_405_ZS034_FOV-1.tif` carries marker value 34 and
`C10-1_405_ZS_FOV-1.tif` has no well-formed marker. -/
theorem c4_slice_index_decoder_witness :
    (∃ pre ds post,
        ("C10-1_405_ZS034_FOV-1.tif" : String).data =
          pre ++ '_' :: 'Z' :: 'S' :: (ds ++ '_' :: post) ∧
        ds ≠ [] ∧ IsDigits ds ∧
        extract_z_slice_number_from_filename "C10-1_405_ZS034_FOV-1.tif" = digitsToNat ds) ∧
    extract_z_slice_number_from_filename "C10-1_405_ZS_FOV-1.tif" = 0 :=
  ⟨(c4_slice_index_decoder "C10-1_405_ZS034_FOV-1.tif").1
      ⟨"C10-1_405".data, ['0', '3', '4'], "FOV-1.tif".data, by decide, by decide, by decide⟩,
   (c4_slice_index_decoder "C10-1_405_ZS_FOV-1.tif").2
      ((not_congr (hasMarker_iff _)).mpr (by decide))⟩


/-! ### Directory entries and filename tokens

`nviz/image.py` keys image files by `file.name.split("_")[1]` and label
files by `file.name.split("_")[0]`.  Python raises an IndexError when a
name has fewer than two underscore-delimited tokens; the spec (section 4.1)
requires callers to pre-filter non-conforming names, so the embedding
totalises the accessor with an empty-string default. -/

/-- `str.split(sep)` for a one-character separator, over the character
list (e.g. `splitOnChar '_' "A_111_".data = ["A", "111", ""].map data`). -/
def splitOnChar (sep : Char) (cs : List Char) : List (List Char) :=
  cs.foldr
    (fun c acc =>
      match acc with
      | [] => if c = sep then [[], []] else [[c]]
      | g :: gs => if c = sep then [] :: g :: gs else (c :: g) :: gs)
    [[]]

/-- `s.endswith(suffix)`. -/
def strEndsWith (s suffix : String) : Bool := suffix.data.isSuffixOf s.data

def token1 (name : String) : String := ⟨(splitOnChar '_' name.data).getD 1 []⟩

def token0 (name : String) : String := ⟨(splitOnChar '_' name.data).getD 0 []⟩

/-- A discovered image slice file: its name and the 2D array `tiff.imread`
would return for its path. -/
structure ImageFile where
  name : String
  data : Img2
deriving DecidableEq

/-- A discovered label file: its name and the 3D array `tiff.imread`
would return for its path. -/
structure LabelFile where
  name : String
  data : Vol3
deriving DecidableEq

instance {ε α : Type} [DecidableEq ε] [DecidableEq α] : DecidableEq (Except ε α) := fun x y =>
  match x, y with
  | Except.ok a, Except.ok b =>
    if h : a = b then isTrue (by rw [h]) else isFalse (fun hc => h (Except.ok.inj hc))
  | Except.error a, Except.error b =>
    if h : a = b then isTrue (by rw [h]) else isFalse (fun hc => h (Except.error.inj hc))
  | Except.ok _, Except.error _ => isFalse (fun hc => Except.noConfusion hc)
  | Except.error _, Except.ok _ => isFalse (fun hc => Except.noConfusion hc)

/-- Python's string comparison: lexicographic on code points, which is the
lexicographic order on the character list. -/
def strKeyRel {α : Type} (key : α → String) : α → α → Prop :=
  fun a b => (key a).data ≤ (key b).data

instance {α : Type} (key : α → String) : DecidableRel (strKeyRel key) :=
  fun a b => inferInstanceAs (Decidable ((key a).data ≤ (key b).data))

def natKeyRel {α : Type} (key : α → Nat) : α → α → Prop :=
  fun a b => key a ≤ key b

instance {α : Type} (key : α → Nat) : DecidableRel (natKeyRel key) :=
  fun a b => inferInstanceAs (Decidable (key a ≤ key b))

/-- Python's `sorted` with a string-valued key: a stable sort.
`List.insertionSort` is stable, so it models `sorted` faithfully. -/
def sortByStringKey {α : Type} (key : α → String) (l : List α) : List α :=
  List.insertionSort (strKeyRel key) l

/-- Python's `sorted` with an integer-valued key (stable). -/
def sortByNatKey {α : Type} (key : α → Nat) (l : List α) : List α :=
  List.insertionSort (natKeyRel key) l

/-- `itertools.groupby`: group consecutive elements sharing a key. -/
def groupByKey {α : Type} (key : α → String) : List α → List (String × List α)
  | [] => []
  | f :: fs =>
    match groupByKey key fs with
    | [] => [(key f, [f])]
    | (k, g) :: rest =>
      if key f = k then (key f, f :: g) :: rest
      else (key f, [f]) :: (k, g) :: rest

/-! ### Channel-name resolution

`tiff_to_zarr` uses `channel_map[filename_code]` (KeyError on a missing
code); `tiff_to_ometiff` uses
`channel_map.get(filename_code, f"Unknown_{filename_code}")`. -/

def channel_name_strict (channel_map : List (String × String)) (code : String) :
    Except String String :=
  match channel_map.lookup code with
  | some v => Except.ok v
  | none => Except.error ("KeyError: " ++ code)

def channel_name_lenient (channel_map : List (String × String)) (code : String) : String :=
  (channel_map.lookup code).getD ("Unknown_" ++ code)

/-! ### Frame assembler (images), `nviz/image.py` lines 54-76 and 250-272 -/

/-- Keep `.tif`/`.tiff` entries whose second underscore token is not
`Merge`. -/
def imageDirFilter (listing : List ImageFile) : List ImageFile :=
  listing.filter (fun f =>
    (strEndsWith f.name ".tif" || strEndsWith f.name ".tiff") &&
      (token1 f.name != "Merge"))

/-- Sort the filtered listing by channel code and group consecutively by
that code, as `groupby(sorted(..., key=...split("_")[1]), key=...)` does. -/
def imageGroups (listing : List ImageFile) : List (String × List ImageFile) :=
  groupByKey (fun f => token1 f.name)
    (sortByStringKey (fun f => token1 f.name) (imageDirFilter listing))

/-- Order one channel group ascending by decoded slice index. -/
def sortFilesByZ (files : List ImageFile) : List ImageFile :=
  sortByNatKey (fun f => extract_z_slice_number_from_filename f.name) files

/-- A dict comprehension that raises at the first failing entry. -/
def mapExcept {α β : Type} (f : α → Except String β) : List α → Except String (List β)
  | [] => Except.ok []
  | a :: as =>
    match f a with
    | Except.error e => Except.error e
    | Except.ok b => (mapExcept f as).map (fun bs => b :: bs)

def frame_files_images_strict (channel_map : List (String × String))
    (listing : List ImageFile) : Except String (List (String × List ImageFile)) :=
  mapExcept (fun g =>
    (channel_name_strict channel_map g.1).map (fun name => (name, sortFilesByZ g.2)))
    (imageGroups listing)

def frame_files_images_lenient (channel_map : List (String × String))
    (listing : List ImageFile) : List (String × List ImageFile) :=
  (imageGroups listing).map (fun g =>
    (channel_name_lenient channel_map g.1, sortFilesByZ g.2))

/-- `np.stack([...], axis=0).astype(np.uint16)`: stack the 2D planes along
a new leading axis, then cast. -/
def stackFiles (files : List ImageFile) : Vol3 :=
  castVol3 (files.map (fun f => f.data))

def frame_zstacks_images_strict (channel_map : List (String × String))
    (listing : List ImageFile) : Except String (List (String × Vol3)) :=
  (frame_files_images_strict channel_map listing).map (fun ff =>
    ff.map (fun g => (g.1, stackFiles g.2)))

def frame_zstacks_images_lenient (channel_map : List (String × String))
    (listing : List ImageFile) : List (String × Vol3) :=
  (frame_files_images_lenient channel_map listing).map (fun g =>
    (g.1, stackFiles g.2))

/-! ### Frame assembler (labels)

`tiff_to_zarr` lines 78-88: scandir the label directory (no extension
filter), sort and group by the first underscore token, keep the first file
per group, and name the group `f"{pathlib.Path(label_name).stem} (labels)"`
where `label_name` is the group key.  `tiff_to_ometiff` lines 274-284:
glob `*.tiff` only, same grouping, and keep the key itself as the name. -/

/-- `pathlib.Path(s).stem` for a plain name: drop the last dot-suffix, if
any, unless the name is a pure dotfile like `.hidden`. -/
def stem (s : String) : String :=
  match splitOnChar '.' s.data with
  | [] => s
  | [_] => s
  | parts =>
    if parts.headD [] = [] ∧ parts.length = 2 then s
    else ⟨List.intercalate ['.'] parts.dropLast⟩

def labelGroupsZarr (listing : List LabelFile) : List (String × List LabelFile) :=
  groupByKey (fun f => token0 f.name)
    (sortByStringKey (fun f => token0 f.name) listing)

def frame_files_labels_zarr (listing : List LabelFile) : List (String × LabelFile) :=
  (labelGroupsZarr listing).filterMap (fun g =>
    g.2.head?.map (fun f => (stem g.1 ++ " (labels)", f)))

def frame_zstacks_labels_zarr (listing : List LabelFile) : List (String × Vol3) :=
  (frame_files_labels_zarr listing).map (fun g => (g.1, castVol3 g.2.data))

def labelGroupsOmetiff (listing : List LabelFile) : List (String × List LabelFile) :=
  groupByKey (fun f => token0 f.name)
    (sortByStringKey (fun f => token0 f.name)
      (listing.filter (fun f => strEndsWith f.name ".tiff")))

def frame_files_labels_ometiff (listing : List LabelFile) : List (String × LabelFile) :=
  (labelGroupsOmetiff listing).filterMap (fun g =>
    g.2.head?.map (fun f => (g.1, f)))

def frame_zstacks_labels_ometiff (listing : List LabelFile) : List (String × Vol3) :=
  (frame_files_labels_ometiff listing).map (fun g => (g.1, castVol3 g.2.data))

/-! ### OME-Zarr serializer, `nviz/image.py` lines 119-213

The zarr / ome-zarr libraries are external; `zarr_write_image` with
`scaler=None` writes the given array as the single resolution level at
dataset path "0" inside the group (no multi-resolution pyramid). -/

structure CoordTransform where
  type : String
  scale : List ℚ
deriving DecidableEq

structure MSDataset where
  path : String
  coordinateTransformations : List CoordTransform
deriving DecidableEq

structure MSAxis where
  name : String
  unit : String
  type : String
deriving DecidableEq

structure Multiscale where
  datasets : List MSDataset
  axes : List MSAxis
deriving DecidableEq

/-- The `scale_metadata` dict literal of `tiff_to_zarr` (lines 132-164). -/
def scale_metadata (scaling_values : List ℚ) : List Multiscale :=
  [{ datasets :=
       [{ path := "0",
          coordinateTransformations := [{ type := "scale", scale := scaling_values }] }],
     axes :=
       [{ name := "z", unit := "micrometer", type := "space" },
        { name := "y", unit := "micrometer", type := "space" },
        { name := "x", unit := "micrometer", type := "space" }] }]

structure ZDataset where
  path : String
  data : Vol3
deriving DecidableEq

structure ZAttrs where
  units : String
  multiscales : List Multiscale
deriving DecidableEq

structure ZGroup where
  name : String
  attrs : ZAttrs
  datasets : List ZDataset
deriving DecidableEq

structure ZStore where
  images : List ZGroup
  labels : Option (List ZGroup)
deriving DecidableEq

/-- External `ome_zarr.writer.write_image` with `scaler=None`: one dataset
at path "0" holding the raw stack. -/
def zarr_write_image (stack : Vol3) : List ZDataset :=
  [{ path := "0", data := stack }]

/-- One child group as written by the per-channel loop (lines 169-181 and
186-198): write the stack, then set `units` and `multiscales` attributes. -/
def writeChannelGroup (scaling_values : List ℚ) (channel : String) (stack : Vol3) :
    ZGroup :=
  { name := channel,
    attrs := { units := "micrometers", multiscales := scale_metadata scaling_values },
    datasets := zarr_write_image stack }

/-- The store contents produced by a `tiff_to_zarr` call: the `images`
group holds one child per mapped channel, `labels` (when a label directory
is given) one child per compartment.  The existence / overwrite gate on
`output_path` (lines 119-125) is modelled separately as
`zarr_overwrite_gate`. -/
def tiff_to_zarr_model (channel_map : List (String × String))
    (image_listing : List ImageFile) (label_listing : Option (List LabelFile))
    (scaling_values : List ℚ) : Except String ZStore :=
  (frame_zstacks_images_strict channel_map image_listing).map (fun imgs =>
    { images := imgs.map (fun g => writeChannelGroup scaling_values g.1 g.2),
      labels := label_listing.map (fun ll =>
        (frame_zstacks_labels_zarr ll).map (fun g =>
          writeChannelGroup scaling_values g.1 g.2)) })

/-! ### Output-path existence gate, lines 119-125 vs 322-324 -/

/-- What exists at `output_path` before the call. -/
structure OutPathState where
  isDir : Bool
  isFile : Bool
deriving DecidableEq

/-- `shutil.rmtree(output_path, ignore_errors=True)`: removes a directory
tree; on a non-directory it raises, and the error is swallowed, leaving a
plain file in place. -/
def rmtree_ignore_errors (st : OutPathState) : OutPathState :=
  { st with isDir := false }

/-- `tiff_to_zarr` lines 119-125: `if overwrite and is_dir: rmtree;
elif is_dir: raise FileExistsError(... already exists ...)`. -/
def zarr_overwrite_gate (st : OutPathState) (overwrite : Bool) :
    Except String OutPathState :=
  if overwrite && st.isDir then Except.ok (rmtree_ignore_errors st)
  else if st.isDir then Except.error "already exists"
  else Except.ok st

/-- `tiff_to_ometiff` lines 322-324: `if overwrite: rmtree(...)`; there is
no existence check and no error path at all. -/
def ometiff_overwrite_gate (st : OutPathState) (overwrite : Bool) :
    Except String OutPathState :=
  if overwrite then Except.ok (rmtree_ignore_errors st) else Except.ok st

/-! ### OME-TIFF serializer, `nviz/image.py` lines 326-377 -/

/-- The OME metadata dict built at lines 354-367.  `generate_ome_xml`
(external serialization of this dict) is out of scope; the dict itself is
the embedded metadata.  The unit strings are the source's 7-bit-ascii
micrometer marker "um". -/
structure OmeMeta where
  SizeC : Nat
  SizeZ : Nat
  SizeY : Nat
  SizeX : Nat
  PhysicalSizeX : ℚ
  PhysicalSizeY : ℚ
  PhysicalSizeZ : ℚ
  PhysicalSizeXUnit : String
  PhysicalSizeYUnit : String
  PhysicalSizeZUnit : String
  Channel : List String
deriving DecidableEq

/-- Lines 326-351: collect image stacks and names, then label stacks and
suffixed names, and concatenate along a new leading channel axis when any
labels were collected. -/
def tiff_to_ometiff_combine (imgs lbls : List (String × Vol3)) :
    List Vol3 × List String :=
  let images_data := imgs.map Prod.snd
  let channel_names := imgs.map Prod.fst
  let labels_data := lbls.map Prod.snd
  let label_names := lbls.map (fun p => p.1 ++ " (labels)")
  if labels_data.isEmpty then (images_data, channel_names)
  else (images_data ++ labels_data, channel_names ++ label_names)

/-- Lines 354-367: sizes from `combined_data.shape`, physical sizes from
`scaling_values[2]/[1]/[0]`, units "um", one channel entry per name. -/
def ome_metadata_of (combined : List Vol3) (names : List String)
    (scaling_values : List ℚ) : OmeMeta :=
  { SizeC := combined.length
    SizeZ := (combined.headD []).length
    SizeY := ((combined.headD []).headD []).length
    SizeX := (((combined.headD []).headD []).headD []).length
    PhysicalSizeX := scaling_values.getD 2 0
    PhysicalSizeY := scaling_values.getD 1 0
    PhysicalSizeZ := scaling_values.getD 0 0
    PhysicalSizeXUnit := "um"
    PhysicalSizeYUnit := "um"
    PhysicalSizeZUnit := "um"
    Channel := names }

/-- The combined 4D array and embedded metadata a `tiff_to_ometiff` call
writes. -/
def tiff_to_ometiff_model (channel_map : List (String × String))
    (image_listing : List ImageFile) (label_listing : Option (List LabelFile))
    (scaling_values : List ℚ) : (List Vol3 × List String) × OmeMeta :=
  let imgs := frame_zstacks_images_lenient channel_map image_listing
  let lbls := (label_listing.map frame_zstacks_labels_ometiff).getD []
  let cn := tiff_to_ometiff_combine imgs lbls
  (cn, ome_metadata_of cn.1 cn.2 scaling_values)

/-! ### Post-write behaviour of the two OME-TIFF writers -/

/-- Calls into tifffile made around the write. -/
inductive TiffLibCall where
  | writeData (path : String)
  | openAndCheckOme (path : String)
deriving DecidableEq

/-- `nviz/image.py` lines 370-377: open a TiffWriter on the output path,
write the combined data, and return the path — nothing else. -/
def nviz_ometiff_io (output_path : String) : List TiffLibCall :=
  [TiffLibCall.writeData output_path]

/-- `raw_organoid_images_to_omezarr/tiff_to_ometiff.py` lines 193-226:
write the combined data, then `verify_ome_tiff(output_path)` re-opens the
file and checks `tif.is_ome`. -/
def script_ometiff_io (output_path : String) : List TiffLibCall :=
  [TiffLibCall.writeData output_path, TiffLibCall.openAndCheckOme output_path]

/-- `verify_ome_tiff` (script lines 205-223): `open_result` is the outcome
of `TiffFile(file_path)` — `none` when opening raises, `some b` when it
reports `is_ome = b`.  A ValueError is raised unless the file is
recognized as OME. -/
def verify_ome_tiff (open_result : Option Bool) : Except String Unit :=
  match open_result with
  | some true => Except.ok ()
  | some false => Except.error "is not an OME-TIFF file."
  | none => Except.error "Error verifying OME-TIFF file"

/-! ### Scan-Metadata Reader, `gff3d_utils/view.py` lines 33-73

An XML document is modelled as an element tree.  `root.findall(".//Setting")`
returns every strict descendant tagged `Setting`, in document order.
`float(...)` is an external call; the embedding is parametrized by the
(successful) numeric parse `pf` applied to an element's text. -/

inductive XElem where
  | node (tag : String) (attrs : List (String × String)) (text : String)
      (children : List XElem)

def XElem.tag : XElem → String
  | XElem.node t _ _ _ => t

def XElem.attrs : XElem → List (String × String)
  | XElem.node _ a _ _ => a

def XElem.text : XElem → String
  | XElem.node _ _ s _ => s

def XElem.children : XElem → List XElem
  | XElem.node _ _ _ cs => cs

/-- `element.get(key)`: attribute lookup. -/
def XElem.get (e : XElem) (k : String) : Option String :=
  e.attrs.lookup k

mutual

/-- Strict descendants of an element, in document (pre-)order. -/
def XElem.descendants : XElem → List XElem
  | XElem.node _ _ _ cs => descendantsList cs

def descendantsList : List XElem → List XElem
  | [] => []
  | c :: cs => c :: XElem.descendants c ++ descendantsList cs

end

/-- `root.findall(".//Setting")`. -/
def findallSettings (root : XElem) : List XElem :=
  root.descendants.filter (fun e => e.tag == "Setting")

/-- Loop state: the three mutable variables of the reader. -/
structure ScanVals where
  z : Option ℚ
  y : Option ℚ
  x : Option ℚ
deriving DecidableEq

/-- One iteration of the `for setting in root.findall(".//Setting")` loop:
the `if/elif` chain on `setting.get("Parameter")`. -/
def scanStep (pf : String → ℚ) (acc : ScanVals) (s : XElem) : ScanVals :=
  if s.get "Parameter" = some "MicronsPerPixelY" then { acc with y := some (pf s.text) }
  else if s.get "Parameter" = some "MicronsPerPixelX" then { acc with x := some (pf s.text) }
  else if s.get "Parameter" = some "ZStackSpacingMicrons" then { acc with z := some (pf s.text) }
  else acc

def gather_scaling_info_from_scaninfoxml (pf : String → ℚ) (root : XElem) :
    Option ℚ × Option ℚ × Option ℚ :=
  let fin := (findallSettings root).foldl (scanStep pf) ⟨none, none, none⟩
  (fin.z, fin.y, fin.x)

/-- The `Setting` descendants carrying a given `Parameter` attribute. -/
def settingsFor (root : XElem) (p : String) : List XElem :=
  (findallSettings root).filter (fun e => e.get "Parameter" == some p)

theorem getLast?_eq_head?_of_length_le_one {α : Type} (l : List α) (h : l.length ≤ 1) :
    l.getLast? = l.head? := by
  match l with
  | [] => rfl
  | [a] => rfl
  | a :: b :: t => simp [List.length_cons] at h

/-- The `z` variable after the loop holds the last matching Setting's
parsed text (last write wins), or the initial value if none matched. -/
theorem foldl_scanStep_z (pf : String → ℚ) :
    ∀ (S : List XElem) (acc : ScanVals),
    (S.foldl (scanStep pf) acc).z =
      (((S.filter (fun e => e.get "Parameter" == some "ZStackSpacingMicrons")).getLast?.map
        (fun e => pf e.text)).or acc.z)
  | [], acc => by simp
  | s :: S, acc => by
    rw [List.foldl_cons, foldl_scanStep_z pf S (scanStep pf acc s)]
    by_cases hz : s.get "Parameter" = some "ZStackSpacingMicrons"
    · have hstep : (scanStep pf acc s).z = some (pf s.text) := by simp [scanStep, hz]
      rw [List.filter_cons_of_pos (by simp [hz]), hstep]
      cases hF : S.filter (fun e => e.get "Parameter" == some "ZStackSpacingMicrons") with
      | nil => simp
      | cons x xs =>
        cases hg : (x :: xs).getLast? with
        | none => exact absurd (List.getLast?_eq_none_iff.mp hg) (by simp)
        | some e => simp [List.getLast?_cons_cons, hg]
    · have hstep : (scanStep pf acc s).z = acc.z := by
        by_cases h1 : s.get "Parameter" = some "MicronsPerPixelY"
        · simp [scanStep, h1]
        by_cases h2 : s.get "Parameter" = some "MicronsPerPixelX"
        · simp [scanStep, h1, h2]
        simp [scanStep, h1, h2, hz]
      rw [List.filter_cons_of_neg (by simp [hz]), hstep]

/-- The `y` variable after the loop (last write wins). -/
theorem foldl_scanStep_y (pf : String → ℚ) :
    ∀ (S : List XElem) (acc : ScanVals),
    (S.foldl (scanStep pf) acc).y =
      (((S.filter (fun e => e.get "Parameter" == some "MicronsPerPixelY")).getLast?.map
        (fun e => pf e.text)).or acc.y)
  | [], acc => by simp
  | s :: S, acc => by
    rw [List.foldl_cons, foldl_scanStep_y pf S (scanStep pf acc s)]
    by_cases hy : s.get "Parameter" = some "MicronsPerPixelY"
    · have hstep : (scanStep pf acc s).y = some (pf s.text) := by simp [scanStep, hy]
      rw [List.filter_cons_of_pos (by simp [hy]), hstep]
      cases hF : S.filter (fun e => e.get "Parameter" == some "MicronsPerPixelY") with
      | nil => simp
      | cons x xs =>
        cases hg : (x :: xs).getLast? with
        | none => exact absurd (List.getLast?_eq_none_iff.mp hg) (by simp)
        | some e => simp [List.getLast?_cons_cons, hg]
    · have hstep : (scanStep pf acc s).y = acc.y := by
        by_cases h2 : s.get "Parameter" = some "MicronsPerPixelX"
        · simp [scanStep, hy, h2]
        by_cases h3 : s.get "Parameter" = some "ZStackSpacingMicrons"
        · simp [scanStep, hy, h2, h3]
        simp [scanStep, hy, h2, h3]
      rw [List.filter_cons_of_neg (by simp [hy]), hstep]

/-- The `x` variable after the loop (last write wins). -/
theorem foldl_scanStep_x (pf : String → ℚ) :
    ∀ (S : List XElem) (acc : ScanVals),
    (S.foldl (scanStep pf) acc).x =
      (((S.filter (fun e => e.get "Parameter" == some "MicronsPerPixelX")).getLast?.map
        (fun e => pf e.text)).or acc.x)
  | [], acc => by simp
  | s :: S, acc => by
    rw [List.foldl_cons, foldl_scanStep_x pf S (scanStep pf acc s)]
    by_cases hx : s.get "Parameter" = some "MicronsPerPixelX"
    · have hstep : (scanStep pf acc s).x = some (pf s.text) := by
        by_cases h1 : s.get "Parameter" = some "MicronsPerPixelY"
        · rw [h1] at hx; simp at hx
        simp [scanStep, h1, hx]
      rw [List.filter_cons_of_pos (by simp [hx]), hstep]
      cases hF : S.filter (fun e => e.get "Parameter" == some "MicronsPerPixelX") with
      | nil => simp
      | cons x xs =>
        cases hg : (x :: xs).getLast? with
        | none => exact absurd (List.getLast?_eq_none_iff.mp hg) (by simp)
        | some e => simp [List.getLast?_cons_cons, hg]
    · have hstep : (scanStep pf acc s).x = acc.x := by
        by_cases h1 : s.get "Parameter" = some "MicronsPerPixelY"
        · simp [scanStep, h1]
        by_cases h3 : s.get "Parameter" = some "ZStackSpacingMicrons"
        · simp [scanStep, h1, hx, h3]
        simp [scanStep, h1, hx, h3]
      rw [List.filter_cons_of_neg (by simp [hx]), hstep]

/-- **C5.** For every well-formed XML document (element tree) in which each
of the three parameter names labels at most one `Setting` element, the
Scan-Metadata Reader returns the 3-tuple `(z_spacing, y_pixel, x_pixel)`
whose slots are the parsed text of the `Setting` elements (located anywhere
in the tree) whose `Parameter` attribute is `ZStackSpacingMicrons`,
`MicronsPerPixelY` and `MicronsPerPixelX` respectively, and any slot whose
`Setting` element is absent from the document is `None` while the others
are still populated. -/
theorem c5_scan_metadata_reader (pf : String → ℚ) (root : XElem)
    (hz : (settingsFor root "ZStackSpacingMicrons").length ≤ 1)
    (hy : (settingsFor root "MicronsPerPixelY").length ≤ 1)
    (hx : (settingsFor root "MicronsPerPixelX").length ≤ 1) :
    gather_scaling_info_from_scaninfoxml pf root =
      ((settingsFor root "ZStackSpacingMicrons").head?.map (fun e => pf e.text),
       (settingsFor root "MicronsPerPixelY").head?.map (fun e => pf e.text),
       (settingsFor root "MicronsPerPixelX").head?.map (fun e => pf e.text)) := by
  simp only [settingsFor] at hz hy hx ⊢
  simp only [gather_scaling_info_from_scaninfoxml, Prod.mk.injEq]
  refine ⟨?_, ?_, ?_⟩
  · rw [foldl_scanStep_z pf (findallSettings root) ⟨none, none, none⟩,
      getLast?_eq_head?_of_length_le_one _ hz]
    exact Option.or_none
  · rw [foldl_scanStep_y pf (findallSettings root) ⟨none, none, none⟩,
      getLast?_eq_head?_of_length_le_one _ hy]
    exact Option.or_none
  · rw [foldl_scanStep_x pf (findallSettings root) ⟨none, none, none⟩,
      getLast?_eq_head?_of_length_le_one _ hx]
    exact Option.or_none

/-- The third XML document of the repository's
`test_gather_scaling_info_from_scaninfoxml`: X and Z present in nested
Groups, Y absent. -/
def c5_doc : XElem :=
  XElem.node "ScanInfo" [] ""
    [XElem.node "Group" [("Name", "Calibration")] ""
       [XElem.node "Settings" [] ""
          [XElem.node "Setting" [("Parameter", "MicronsPerPixelX")] "0.300" []]],
     XElem.node "Group" [("Name", "Experiment")] ""
       [XElem.node "Settings" [] ""
          [XElem.node "Setting" [("Parameter", "ZStackSpacingMicrons")] "3.000" []]]]

/-- A concrete numeric parse for the texts of `c5_doc`. -/
def c5_pf : String → ℚ := fun s => if s = "3.000" then 3 else mkRat 3 10

/-- Witness for C5: on `c5_doc` the reader yields `(3.0, None, 0.300)` —
the missing Y slot is `None`, the other two are populated. -/
theorem c5_scan_metadata_reader_witness :
    ((settingsFor c5_doc "ZStackSpacingMicrons").length ≤ 1 ∧
     (settingsFor c5_doc "MicronsPerPixelY").length ≤ 1 ∧
     (settingsFor c5_doc "MicronsPerPixelX").length ≤ 1) ∧
    gather_scaling_info_from_scaninfoxml c5_pf c5_doc = (some 3, none, some (mkRat 3 10)) := by
  refine ⟨⟨by decide, by decide, by decide⟩, ?_⟩
  rw [c5_scan_metadata_reader c5_pf c5_doc (by decide) (by decide) (by decide)]
  decide

/-! ### `groupby` over a sorted listing

`itertools.groupby` applied to a list sorted by the grouping key yields one
group per distinct key, in order of first appearance, each group holding
exactly the elements carrying that key, in listing order. -/

/-- Python string comparison as a relation on `String`. -/
def strLe (s t : String) : Prop := s.data ≤ t.data

theorem strLe_antisymm {s t : String} (h1 : strLe s t) (h2 : strLe t s) : s = t :=
  String.ext (le_antisymm h1 h2)

theorem sorted_map_key {α : Type} (key : α → String) (L : List α)
    (h : L.Sorted (strKeyRel key)) : (L.map key).Sorted strLe :=
  List.Pairwise.map key (fun _ _ hab => hab) h

theorem dedup_head_of_sorted :
    ∀ (M : List String) (m : String), (m :: M).Sorted strLe →
      ∃ D, (m :: M).dedup = m :: D
  | [], _, _ => ⟨[], by simp⟩
  | h :: M', m, hs => by
    by_cases hm : m ∈ h :: M'
    · have hmh : m = h := by
        rcases List.mem_cons.mp hm with he | hm'
        · exact he
        · exact strLe_antisymm (List.rel_of_sorted_cons hs h (by simp))
            (List.rel_of_sorted_cons (List.Sorted.of_cons hs) m hm')
      obtain ⟨D, hD⟩ := dedup_head_of_sorted M' h (List.Sorted.of_cons hs)
      exact ⟨D, by rw [List.dedup_cons_of_mem hm, hD, hmh]⟩
    · exact ⟨(h :: M').dedup, List.dedup_cons_of_not_mem hm⟩

theorem groupByKey_cons_eq {α : Type} (key : α → String) (x y : α) (L : List α)
    (A : List α) (B : List (String × List α))
    (h : groupByKey key (y :: L) = (key y, A) :: B) :
    groupByKey key (x :: y :: L) =
      if key x = key y then (key x, x :: A) :: B
      else (key x, [x]) :: (key y, A) :: B := by
  conv_lhs => rw [groupByKey, h]

/-- `groupby(sorted-by-key list)` in canonical form: one group per distinct
key (in sorted order), each group the filter of the list at that key. -/
theorem groupByKey_eq_of_sorted {α : Type} (key : α → String) :
    ∀ (L : List α), L.Sorted (strKeyRel key) →
    groupByKey key L =
      ((L.map key).dedup).map (fun t => (t, L.filter (fun z => key z == t)))
  | [], _ => rfl
  | [x], _ => by
    simp [groupByKey, List.dedup_cons_of_not_mem, List.filter]
  | x :: y :: L'', hs => by
    have hx : ∀ y' ∈ y :: L'', strLe (key x) (key y') :=
      fun y' hy' => List.rel_of_sorted_cons hs y' hy'
    have hs' : (y :: L'').Sorted (strKeyRel key) := List.Sorted.of_cons hs
    have ih := groupByKey_eq_of_sorted key (y :: L'') hs'
    have hM : (key y :: L''.map key).Sorted strLe := by
      have h0 := sorted_map_key key (y :: L'') hs'
      rwa [List.map_cons] at h0
    obtain ⟨D, hD⟩ := dedup_head_of_sorted (L''.map key) (key y) hM
    have hnd : (key y :: D).Nodup := by
      rw [← hD]
      exact List.nodup_dedup _
    have hyD : key y ∉ D := (List.nodup_cons.mp hnd).1
    have hDM : ∀ t ∈ D, t ∈ key y :: L''.map key := by
      intro t ht
      have hsub : (key y :: D).Sublist (key y :: L''.map key) := by
        rw [← hD]
        exact List.dedup_sublist _
      exact hsub.subset (List.mem_cons_of_mem _ ht)
    rw [List.map_cons, hD, List.map_cons] at ih
    rw [groupByKey_cons_eq key x y L'' _ _ ih]
    by_cases hxy : key x = key y
    · rw [if_pos hxy, List.map_cons, List.map_cons,
        List.dedup_cons_of_mem (by rw [hxy]; exact List.mem_cons_self _ _), hD,
        List.map_cons]
      congr 1
      · have hfil : (x :: y :: L'').filter (fun z => key z == key y) =
            x :: (y :: L'').filter (fun z => key z == key y) := by
          simp [List.filter_cons, hxy]
        rw [hfil, hxy]
      · refine List.map_congr_left (fun t ht => ?_)
        have hxtf : (key x == t) = false := by
          simp only [beq_eq_false_iff_ne, ne_eq]
          rw [hxy]
          exact fun he => hyD (he ▸ ht)
        simp [List.filter_cons, hxtf]
    · have hxM : key x ∉ key y :: L''.map key := by
        intro hmem
        rcases List.mem_cons.mp hmem with he | hm'
        · exact hxy he
        · have h1 : strLe (key x) (key y) := hx y (by simp)
          have h2 : strLe (key y) (key x) :=
            List.rel_of_sorted_cons hM (key x) hm'
          exact hxy (strLe_antisymm h1 h2)
      rw [if_neg hxy, List.map_cons, List.map_cons,
        List.dedup_cons_of_not_mem hxM, hD, List.map_cons, List.map_cons]
      congr 1
      · have hfilx : (x :: y :: L'').filter (fun z => key z == key x) = [x] := by
          rw [List.filter_cons_of_pos (by simp)]
          congr 1
          refine List.filter_eq_nil_iff.mpr (fun a ha => ?_)
          simp only [beq_iff_eq]
          intro he
          have hmem : key a ∈ (y :: L'').map key := List.mem_map_of_mem key ha
          rw [List.map_cons] at hmem
          exact hxM (he ▸ hmem)
        rw [hfilx]
      congr 1
      · have hfily : (x :: y :: L'').filter (fun z => key z == key y) =
            (y :: L'').filter (fun z => key z == key y) := by
          have hxyf : (key x == key y) = false := by
            simp only [beq_eq_false_iff_ne, ne_eq]
            exact hxy
          simp [List.filter_cons, hxyf]
        rw [hfily]
      · refine List.map_congr_left (fun t ht => ?_)
        have hxtf : (key x == t) = false := by
          simp only [beq_eq_false_iff_ne, ne_eq]
          intro he
          exact hxM (he ▸ hDM t ht)
        simp [List.filter_cons, hxtf]

theorem sortByStringKey_sorted {α : Type} (key : α → String) (l : List α) :
    (sortByStringKey key l).Sorted (strKeyRel key) := by
  haveI : IsTotal α (strKeyRel key) := ⟨fun a b => le_total (key a).data (key b).data⟩
  haveI : IsTrans α (strKeyRel key) := ⟨fun a b c hab hbc => le_trans hab hbc⟩
  exact List.sorted_insertionSort _ _

theorem sortByStringKey_perm {α : Type} (key : α → String) (l : List α) :
    sortByStringKey key l ~ l :=
  List.perm_insertionSort _ _

theorem sortByNatKey_sorted {α : Type} (key : α → Nat) (l : List α) :
    (sortByNatKey key l).Sorted (natKeyRel key) := by
  haveI : IsTotal α (natKeyRel key) := ⟨fun a b => Nat.le_total (key a) (key b)⟩
  haveI : IsTrans α (natKeyRel key) := ⟨fun a b c hab hbc => Nat.le_trans hab hbc⟩
  exact List.sorted_insertionSort _ _

theorem sortByNatKey_perm {α : Type} (key : α → Nat) (l : List α) :
    sortByNatKey key l ~ l :=
  List.perm_insertionSort _ _

/-- Sorting by an integer key is insensitive to the input order as soon as
the keys are pairwise distinct. -/
theorem sortByNatKey_eq_of_perm {α : Type} (key : α → Nat) (l₁ l₂ : List α)
    (hp : l₁ ~ l₂) (hinj : l₁.Pairwise (fun a b => key a ≠ key b)) :
    sortByNatKey key l₁ = sortByNatKey key l₂ := by
  have hperm : sortByNatKey key l₁ ~ sortByNatKey key l₂ :=
    (sortByNatKey_perm key l₁).trans (hp.trans (sortByNatKey_perm key l₂).symm)
  have hne₁ : (sortByNatKey key l₁).Pairwise (fun a b => key a ≠ key b) :=
    ((sortByNatKey_perm key l₁).pairwise_iff (fun h => Ne.symm h)).mpr hinj
  have hne₂ : (sortByNatKey key l₂).Pairwise (fun a b => key a ≠ key b) :=
    ((sortByNatKey_perm key l₂).pairwise_iff (fun h => Ne.symm h)).mpr
      ((hp.pairwise_iff (fun h => Ne.symm h)).mp hinj)
  have hst₁ : (sortByNatKey key l₁).Sorted (fun a b => key a < key b) :=
    ((sortByNatKey_sorted key l₁).and hne₁).imp
      (fun hab => Nat.lt_of_le_of_ne hab.1 hab.2)
  have hst₂ : (sortByNatKey key l₂).Sorted (fun a b => key a < key b) :=
    ((sortByNatKey_sorted key l₂).and hne₂).imp
      (fun hab => Nat.lt_of_le_of_ne hab.1 hab.2)
  haveI : IsAntisymm α (fun a b => key a < key b) :=
    ⟨fun a b h h' => absurd (Nat.lt_trans h h') (Nat.lt_irrefl _)⟩
  exact List.eq_of_perm_of_sorted hperm hst₁ hst₂

/-- With pairwise-distinct keys, at most one element carries a given key. -/
theorem filter_key_length_le_one {α : Type} (key : α → String) :
    ∀ (l : List α), l.Pairwise (fun a b => key a ≠ key b) → ∀ t,
      (l.filter (fun z => key z == t)).length ≤ 1
  | [], _, t => by simp
  | a :: l, h, t => by
    obtain ⟨ha, hl⟩ := List.pairwise_cons.mp h
    by_cases hat : (key a == t) = true
    · have hnil : l.filter (fun z => key z == t) = [] := by
        refine List.filter_eq_nil_iff.mpr (fun b hb => ?_)
        simp only [beq_iff_eq]
        intro hbt
        rw [beq_iff_eq] at hat
        exact ha b hb (by rw [hat, hbt])
      simp [List.filter_cons, hat, hnil]
    · have hatf : (key a == t) = false := by
        simp only [Bool.not_eq_true] at hat
        exact hat
      simp only [List.filter_cons, hatf]
      simp only [Bool.false_eq_true, if_false]
      exact filter_key_length_le_one key l hl t

theorem eq_of_perm_of_length_le_one {α : Type} :
    ∀ (l₁ l₂ : List α), l₁ ~ l₂ → l₁.length ≤ 1 → l₁ = l₂
  | [], l₂, hp, _ => hp.nil_eq
  | [a], l₂, hp, _ => (List.perm_singleton.mp hp.symm).symm
  | a :: b :: t, _, _, h => by simp [List.length_cons] at h

/-- The sorted key sequence of a listing depends only on the listing's
contents, not its order. -/
theorem sorted_map_key_eq {α : Type} (key : α → String) (l₁ l₂ : List α) (hp : l₁ ~ l₂) :
    (sortByStringKey key l₁).map key = (sortByStringKey key l₂).map key := by
  haveI : IsAntisymm String strLe := ⟨fun a b => strLe_antisymm⟩
  have hperm : (sortByStringKey key l₁).map key ~ (sortByStringKey key l₂).map key :=
    ((sortByStringKey_perm key l₁).trans (hp.trans (sortByStringKey_perm key l₂).symm)).map key
  exact List.eq_of_perm_of_sorted hperm
    (sorted_map_key key _ (sortByStringKey_sorted key l₁))
    (sorted_map_key key _ (sortByStringKey_sorted key l₂))

theorem mapExcept_map_congr {α β γ : Type} (g₁ g₂ : α → β) (f : β → Except String γ) :
    ∀ (K : List α), (∀ t ∈ K, f (g₁ t) = f (g₂ t)) →
    mapExcept f (K.map g₁) = mapExcept f (K.map g₂)
  | [], _ => rfl
  | t :: K, h => by
    simp only [List.map_cons, mapExcept, h t (by simp),
      mapExcept_map_congr g₁ g₂ f K (fun x hx => h x (by simp [hx]))]

/-- The slice-sorted files of every channel-code class are independent of
the directory enumeration order, provided no two kept files share both
their channel code and their decoded slice index. -/
theorem sortZ_filter_eq (l₁ l₂ : List ImageFile) (hp : l₁ ~ l₂)
    (hz : (imageDirFilter l₁).Pairwise (fun a b => token1 a.name = token1 b.name →
      extract_z_slice_number_from_filename a.name ≠
        extract_z_slice_number_from_filename b.name)) :
    ∀ t, sortFilesByZ ((sortByStringKey (fun f => token1 f.name)
        (imageDirFilter l₁)).filter (fun z => token1 z.name == t)) =
      sortFilesByZ ((sortByStringKey (fun f => token1 f.name)
        (imageDirFilter l₂)).filter (fun z => token1 z.name == t)) := by
  intro t
  have hfperm : imageDirFilter l₁ ~ imageDirFilter l₂ := hp.filter _
  have hSperm : sortByStringKey (fun f => token1 f.name) (imageDirFilter l₁) ~
      sortByStringKey (fun f => token1 f.name) (imageDirFilter l₂) :=
    (sortByStringKey_perm _ _).trans (hfperm.trans (sortByStringKey_perm _ _).symm)
  have hfil : (sortByStringKey (fun f => token1 f.name)
        (imageDirFilter l₁)).filter (fun z => token1 z.name == t) ~
      (sortByStringKey (fun f => token1 f.name)
        (imageDirFilter l₂)).filter (fun z => token1 z.name == t) :=
    hSperm.filter _
  refine sortByNatKey_eq_of_perm _ _ _ hfil ?_
  have hzS : (sortByStringKey (fun f => token1 f.name)
      (imageDirFilter l₁)).Pairwise (fun a b => token1 a.name = token1 b.name →
        extract_z_slice_number_from_filename a.name ≠
          extract_z_slice_number_from_filename b.name) :=
    ((sortByStringKey_perm _ _).pairwise_iff
      (fun hab hba => Ne.symm (hab hba.symm))).mpr hz
  have hzF : ((sortByStringKey (fun f => token1 f.name)
      (imageDirFilter l₁)).filter (fun z => token1 z.name == t)).Pairwise
        (fun a b => token1 a.name = token1 b.name →
          extract_z_slice_number_from_filename a.name ≠
            extract_z_slice_number_from_filename b.name) :=
    hzS.sublist (List.filter_sublist _)
  refine hzF.imp_of_mem ?_
  intro a b ha hb hr
  have hat : token1 a.name = t := by
    have hmf := (List.mem_filter.mp ha).2
    rwa [beq_iff_eq] at hmf
  have hbt : token1 b.name = t := by
    have hmf := (List.mem_filter.mp hb).2
    rwa [beq_iff_eq] at hmf
  exact hr (by rw [hat, hbt])

/-- The strict (zarr) image assembler depends only on the listing's
contents when the (channel code, slice index) pairs of kept files are
pairwise distinct. -/
theorem frame_files_images_strict_eq (m : List (String × String))
    (l₁ l₂ : List ImageFile) (hp : l₁ ~ l₂)
    (hz : (imageDirFilter l₁).Pairwise (fun a b => token1 a.name = token1 b.name →
      extract_z_slice_number_from_filename a.name ≠
        extract_z_slice_number_from_filename b.name)) :
    frame_files_images_strict m l₁ = frame_files_images_strict m l₂ := by
  have hK : (sortByStringKey (fun f => token1 f.name) (imageDirFilter l₁)).map
        (fun f => token1 f.name) =
      (sortByStringKey (fun f => token1 f.name) (imageDirFilter l₂)).map
        (fun f => token1 f.name) :=
    sorted_map_key_eq _ _ _ (hp.filter _)
  simp only [frame_files_images_strict, imageGroups]
  rw [groupByKey_eq_of_sorted (fun f : ImageFile => token1 f.name) _
      (sortByStringKey_sorted _ _),
    groupByKey_eq_of_sorted (fun f : ImageFile => token1 f.name) _
      (sortByStringKey_sorted _ _), hK]
  refine mapExcept_map_congr _ _ _ _ (fun t ht => ?_)
  simp only
  rw [sortZ_filter_eq l₁ l₂ hp hz t]

/-- The lenient (ometiff) image assembler likewise. -/
theorem frame_files_images_lenient_eq (m : List (String × String))
    (l₁ l₂ : List ImageFile) (hp : l₁ ~ l₂)
    (hz : (imageDirFilter l₁).Pairwise (fun a b => token1 a.name = token1 b.name →
      extract_z_slice_number_from_filename a.name ≠
        extract_z_slice_number_from_filename b.name)) :
    frame_files_images_lenient m l₁ = frame_files_images_lenient m l₂ := by
  have hK : (sortByStringKey (fun f => token1 f.name) (imageDirFilter l₁)).map
        (fun f => token1 f.name) =
      (sortByStringKey (fun f => token1 f.name) (imageDirFilter l₂)).map
        (fun f => token1 f.name) :=
    sorted_map_key_eq _ _ _ (hp.filter _)
  simp only [frame_files_images_lenient, imageGroups]
  rw [groupByKey_eq_of_sorted (fun f : ImageFile => token1 f.name) _
      (sortByStringKey_sorted _ _),
    groupByKey_eq_of_sorted (fun f : ImageFile => token1 f.name) _
      (sortByStringKey_sorted _ _), hK, List.map_map, List.map_map]
  refine List.map_congr_left (fun t ht => ?_)
  simp only [Function.comp_apply]
  rw [sortZ_filter_eq l₁ l₂ hp hz t]

/-- The zarr label assembler depends only on the listing's contents when
every label file has a distinct leading token. -/
theorem frame_files_labels_zarr_eq (l₁ l₂ : List LabelFile) (hp : l₁ ~ l₂)
    (hu : l₁.Pairwise (fun a b => token0 a.name ≠ token0 b.name)) :
    frame_files_labels_zarr l₁ = frame_files_labels_zarr l₂ := by
  have hK : (sortByStringKey (fun f => token0 f.name) l₁).map (fun f => token0 f.name) =
      (sortByStringKey (fun f => token0 f.name) l₂).map (fun f => token0 f.name) :=
    sorted_map_key_eq _ _ _ hp
  have hfun : (fun t => (t, (sortByStringKey (fun f : LabelFile => token0 f.name) l₁).filter
        (fun z => token0 z.name == t))) =
      (fun t => (t, (sortByStringKey (fun f : LabelFile => token0 f.name) l₂).filter
        (fun z => token0 z.name == t))) := by
    funext t
    have hSperm : sortByStringKey (fun f : LabelFile => token0 f.name) l₁ ~
        sortByStringKey (fun f : LabelFile => token0 f.name) l₂ :=
      (sortByStringKey_perm _ _).trans (hp.trans (sortByStringKey_perm _ _).symm)
    have hfil := hSperm.filter (fun z => token0 z.name == t)
    have hu₁ : (sortByStringKey (fun f : LabelFile => token0 f.name) l₁).Pairwise
        (fun a b => token0 a.name ≠ token0 b.name) :=
      ((sortByStringKey_perm _ _).pairwise_iff (fun hab => Ne.symm hab)).mpr hu
    have hlen := filter_key_length_le_one (fun f : LabelFile => token0 f.name) _ hu₁ t
    rw [eq_of_perm_of_length_le_one _ _ hfil hlen]
  simp only [frame_files_labels_zarr, labelGroupsZarr]
  rw [groupByKey_eq_of_sorted (fun f : LabelFile => token0 f.name) _
      (sortByStringKey_sorted _ _),
    groupByKey_eq_of_sorted (fun f : LabelFile => token0 f.name) _
      (sortByStringKey_sorted _ _), hK, hfun]

/-! ### Claim theorems -/

/-- **C1** (code-bug evidence). Evaluating the output-path gates of the two
serializers: `tiff_to_zarr` raises the fatal "already exists" error for an
existing output directory without `overwrite` and deletes the prior
artifact first with `overwrite=True`, but `tiff_to_ometiff` performs no
existence check at all — with an existing artifact at the output path and
`overwrite=False` it proceeds (and the subsequent `TiffWriter` write
replaces the file), contradicting the documented contract the claim
states. -/
theorem c1_overwrite_gate_eval :
    ometiff_overwrite_gate { isDir := false, isFile := true } false =
      Except.ok { isDir := false, isFile := true } ∧
    ometiff_overwrite_gate { isDir := true, isFile := false } false =
      Except.ok { isDir := true, isFile := false } ∧
    zarr_overwrite_gate { isDir := true, isFile := false } false =
      Except.error "already exists" ∧
    zarr_overwrite_gate { isDir := true, isFile := false } true =
      Except.ok { isDir := false, isFile := false } := by
  constructor
  · rfl
  constructor
  · rfl
  constructor
  · rfl
  · rfl

/-- **C2** (counterexample). The nviz `tiff_to_ometiff` conversion performs
no post-write validation: its I/O around the write never re-opens the
artifact, refuting the claim that every successful OME-TIFF conversion
call validates the written file. -/
theorem c2_counterexample :
    TiffLibCall.openAndCheckOme "output.ome.tiff" ∉ nviz_ometiff_io "output.ome.tiff" := by
  decide

/-- **C2** (amended). The script variant validates: its post-write I/O
re-opens the artifact (`openAndCheckOme` right after `writeData`), and
`verify_ome_tiff` succeeds exactly when the re-opened file is recognized
as OME — a failed check or an exception while re-opening is a raised
error, never a silent acceptance.  The nviz `tiff_to_ometiff` function
writes and returns without re-opening the artifact. -/
theorem c2_ometiff_validation (p : String) (r : Option Bool) :
    script_ometiff_io p = [TiffLibCall.writeData p, TiffLibCall.openAndCheckOme p] ∧
    TiffLibCall.openAndCheckOme p ∉ nviz_ometiff_io p ∧
    (verify_ome_tiff r = Except.ok () ↔ r = some true) := by
  refine ⟨rfl, by simp [nviz_ometiff_io], ?_⟩
  cases r with
  | none => simp [verify_ome_tiff]
  | some b => cases b <;> simp [verify_ome_tiff]

/-- **C7.** The OME-TIFF writer's combined array is the concatenation of
all image volumes followed by all label volumes along a new leading
channel axis; its embedded metadata records SizeC/SizeZ/SizeY/SizeX equal
to the combined array's four shape extents, physical sizes
PhysicalSizeX/Y/Z equal to the scaling triple's third, second and first
components with micrometer units (the source's 7-bit-ascii marker "um"),
and one name per channel in order — image channel names as given, then
label names each suffixed with " (labels)". -/
theorem c7_ometiff_combined_metadata (imgs lbls : List (String × Vol3)) (z y x : ℚ) :
    (tiff_to_ometiff_combine imgs lbls).1 = imgs.map Prod.snd ++ lbls.map Prod.snd ∧
    (tiff_to_ometiff_combine imgs lbls).2 =
      imgs.map Prod.fst ++ (lbls.map Prod.fst).map (fun n => n ++ " (labels)") ∧
    (ome_metadata_of (tiff_to_ometiff_combine imgs lbls).1
        (tiff_to_ometiff_combine imgs lbls).2 [z, y, x]).SizeC =
      (tiff_to_ometiff_combine imgs lbls).1.length ∧
    ((ome_metadata_of (tiff_to_ometiff_combine imgs lbls).1
        (tiff_to_ometiff_combine imgs lbls).2 [z, y, x]).SizeZ,
     (ome_metadata_of (tiff_to_ometiff_combine imgs lbls).1
        (tiff_to_ometiff_combine imgs lbls).2 [z, y, x]).SizeY,
     (ome_metadata_of (tiff_to_ometiff_combine imgs lbls).1
        (tiff_to_ometiff_combine imgs lbls).2 [z, y, x]).SizeX) =
      vol3_shape ((tiff_to_ometiff_combine imgs lbls).1.headD []) ∧
    (ome_metadata_of (tiff_to_ometiff_combine imgs lbls).1
        (tiff_to_ometiff_combine imgs lbls).2 [z, y, x]).PhysicalSizeX = x ∧
    (ome_metadata_of (tiff_to_ometiff_combine imgs lbls).1
        (tiff_to_ometiff_combine imgs lbls).2 [z, y, x]).PhysicalSizeY = y ∧
    (ome_metadata_of (tiff_to_ometiff_combine imgs lbls).1
        (tiff_to_ometiff_combine imgs lbls).2 [z, y, x]).PhysicalSizeZ = z ∧
    (ome_metadata_of (tiff_to_ometiff_combine imgs lbls).1
        (tiff_to_ometiff_combine imgs lbls).2 [z, y, x]).PhysicalSizeXUnit = "um" ∧
    (ome_metadata_of (tiff_to_ometiff_combine imgs lbls).1
        (tiff_to_ometiff_combine imgs lbls).2 [z, y, x]).PhysicalSizeYUnit = "um" ∧
    (ome_metadata_of (tiff_to_ometiff_combine imgs lbls).1
        (tiff_to_ometiff_combine imgs lbls).2 [z, y, x]).PhysicalSizeZUnit = "um" ∧
    (ome_metadata_of (tiff_to_ometiff_combine imgs lbls).1
        (tiff_to_ometiff_combine imgs lbls).2 [z, y, x]).Channel =
      (tiff_to_ometiff_combine imgs lbls).2 := by
  cases hl : lbls with
  | nil =>
    simp [tiff_to_ometiff_combine, ome_metadata_of, vol3_shape]
  | cons b bs =>
    simp [tiff_to_ometiff_combine, ome_metadata_of, vol3_shape]

/-- The spec's scenario listing: `A_111_ZS000_.tif` and `A_111_ZS001_.tif`,
2x2 planes of constant 10 and 20. -/
def c3_listing : List ImageFile :=
  [{ name := "A_111_ZS000_.tif", data := [[10, 10], [10, 10]] },
   { name := "A_111_ZS001_.tif", data := [[20, 20], [20, 20]] }]

/-- The same directory contents listed out of slice order, with a `Merge`
preview file and a non-TIFF file interleaved (both must be dropped). -/
def c3_listing_noisy : List ImageFile :=
  [{ name := "A_111_ZS001_.tif", data := [[20, 20], [20, 20]] },
   { name := "A_Merge_ZS000_.tif", data := [[9, 9], [9, 9]] },
   { name := "A_111_ZS000_.tif", data := [[10, 10], [10, 10]] },
   { name := "notes_111.txt", data := [[1, 1], [1, 1]] }]

def c3_store : ZStore :=
  { images := [writeChannelGroup [1, mkRat 1 10, mkRat 1 10] "Channel A"
      [[[10, 10], [10, 10]], [[20, 20], [20, 20]]]],
    labels := none }

/-- **C3.** For the image directory holding `A_111_ZS000_.tif` and
`A_111_ZS001_.tif` (2x2 planes of constant 10 and 20) with mapping
`{"111": "Channel A"}` and scaling `(1.0, 0.1, 0.1)` and no labels, the
output store holds `images/Channel A/0` of shape `(2,2,2)` with plane 0
all 10 and plane 1 all 20; the same contents interleaved with a `Merge`
preview and a non-TIFF file, listed out of slice order, produce the same
store — only `.tif`/`.tiff` entries whose second underscore token is not
`Merge` are kept, grouped by that token, ordered ascending by decoded
slice index, stacked in that order and cast to unsigned 16-bit. -/
theorem c3_frame_assembler_scenario :
    tiff_to_zarr_model [("111", "Channel A")] c3_listing none
      [1, mkRat 1 10, mkRat 1 10] = Except.ok c3_store ∧
    tiff_to_zarr_model [("111", "Channel A")] c3_listing_noisy none
      [1, mkRat 1 10, mkRat 1 10] = Except.ok c3_store ∧
    c3_store.images.map (fun g => (g.name, g.datasets.map
        (fun d => (d.path, d.data, vol3_shape d.data)))) =
      [("Channel A",
        [("0", [[[10, 10], [10, 10]], [[20, 20], [20, 20]]], (2, 2, 2))])] := by
  refine ⟨by decide, by decide, by rfl⟩

def c9_img : List ImageFile := [{ name := "A_111_ZS000_.tif", data := [[5]] }]

def c9_lblA : LabelFile := { name := "compartment_a.tiff", data := [[[1]]] }

def c9_lblB : LabelFile := { name := "compartment_b.tiff", data := [[[2]]] }

/-- **C9** (counterexample). Two label-directory listings with identical
contents (permutations of one another) produce different stores: both
files share the leading token `compartment`, the pipeline keeps only the
first file per token in enumeration order, so the `compartment (labels)`
group holds the volume of whichever file the directory scan yielded
first.  The conversion output is therefore not a function of the
directory contents alone. -/
theorem c9_counterexample :
    List.Perm [c9_lblA, c9_lblB] [c9_lblB, c9_lblA] ∧
    tiff_to_zarr_model [("111", "Channel A")] c9_img (some [c9_lblA, c9_lblB]) [1, 1, 1] ≠
      tiff_to_zarr_model [("111", "Channel A")] c9_img (some [c9_lblB, c9_lblA]) [1, 1, 1] := by
  refine ⟨List.Perm.swap c9_lblB c9_lblA [], by decide⟩

/-- **C9** (amended). The conversion output is a deterministic function of
the directory contents together with the enumeration order; the order
washes out — two calls over listings with identical contents produce
identical stores — provided every label file carries a distinct leading
token and no two kept image files share both their channel code and their
decoded slice index. -/
theorem c9_determinism (m : List (String × String)) (il₁ il₂ : List ImageFile)
    (ll₁ ll₂ : List LabelFile) (sv : List ℚ)
    (hip : il₁ ~ il₂) (hlp : ll₁ ~ ll₂)
    (hz : (imageDirFilter il₁).Pairwise (fun a b => token1 a.name = token1 b.name →
      extract_z_slice_number_from_filename a.name ≠
        extract_z_slice_number_from_filename b.name))
    (hu : ll₁.Pairwise (fun a b => token0 a.name ≠ token0 b.name)) :
    tiff_to_zarr_model m il₁ none sv = tiff_to_zarr_model m il₂ none sv ∧
    tiff_to_zarr_model m il₁ (some ll₁) sv = tiff_to_zarr_model m il₂ (some ll₂) sv := by
  constructor
  · simp only [tiff_to_zarr_model, frame_zstacks_images_strict]
    rw [frame_files_images_strict_eq m il₁ il₂ hip hz]
  · simp only [tiff_to_zarr_model, frame_zstacks_images_strict, frame_zstacks_labels_zarr,
      Option.map_some']
    rw [frame_files_images_strict_eq m il₁ il₂ hip hz,
      frame_files_labels_zarr_eq ll₁ ll₂ hlp hu]

/-- Witness for C9 (amended) at concrete listings: the same image files in
both orders and two distinct-token label files in both orders give
identical stores. -/
theorem c9_determinism_witness :
    ([({ name := "A_111_ZS000_.tif", data := [[5]] } : ImageFile),
      { name := "A_111_ZS001_.tif", data := [[6]] }].Perm
      [({ name := "A_111_ZS001_.tif", data := [[6]] } : ImageFile),
       { name := "A_111_ZS000_.tif", data := [[5]] }]) ∧
    tiff_to_zarr_model [("111", "Channel A")]
        [{ name := "A_111_ZS000_.tif", data := [[5]] },
         { name := "A_111_ZS001_.tif", data := [[6]] }]
        (some [{ name := "cell_m.tiff", data := [[[1]]] },
               { name := "nuclei_m.tiff", data := [[[2]]] }]) [1, 1, 1] =
      tiff_to_zarr_model [("111", "Channel A")]
        [{ name := "A_111_ZS001_.tif", data := [[6]] },
         { name := "A_111_ZS000_.tif", data := [[5]] }]
        (some [{ name := "nuclei_m.tiff", data := [[[2]]] },
               { name := "cell_m.tiff", data := [[[1]]] }]) [1, 1, 1] :=
  ⟨List.Perm.swap _ _ _,
   (c9_determinism [("111", "Channel A")] _ _ _ _ [1, 1, 1]
      (List.Perm.swap _ _ _) (List.Perm.swap _ _ _) (by decide) (by decide)).2⟩

theorem mapExcept_strict_eq_map_lenient (m : List (String × String)) :
    ∀ (gs : List (String × List ImageFile)),
    (∀ g ∈ gs, (m.lookup g.1).isSome = true) →
    mapExcept (fun g => (channel_name_strict m g.1).map
        (fun name => (name, sortFilesByZ g.2))) gs =
      Except.ok (gs.map (fun g => (channel_name_lenient m g.1, sortFilesByZ g.2)))
  | [], _ => rfl
  | g :: gs, h => by
    cases hv : m.lookup g.1 with
    | none =>
      have hg := h g (by simp)
      rw [hv] at hg
      cases hg
    | some v =>
      have ih := mapExcept_strict_eq_map_lenient m gs (fun x hx => h x (by simp [hx]))
      have hfg : (channel_name_strict m g.1).map (fun name => (name, sortFilesByZ g.2)) =
          Except.ok (v, sortFilesByZ g.2) := by
        simp [channel_name_strict, hv, Except.map]
      simp only [mapExcept]
      rw [hfg, ih]
      simp [channel_name_lenient, hv, Except.map]

/-- **C6.** A channel code absent from the mapping makes the strict
variant (`tiff_to_zarr`) fail with a lookup error, while the lenient
variant (`tiff_to_ometiff`) substitutes the synthesized name
`Unknown_<code>` and continues; a present code resolves to the same mapped
name in both, and whenever no code is missing the two assemblers produce
identical channel groups — the variants differ in no other
missing-mapping behaviour. -/
theorem c6_missing_mapping_policy (m : List (String × String)) (code : String) :
    (m.lookup code = none →
      channel_name_strict m code = Except.error ("KeyError: " ++ code) ∧
      channel_name_lenient m code = "Unknown_" ++ code) ∧
    (∀ v, m.lookup code = some v →
      channel_name_strict m code = Except.ok v ∧
      channel_name_lenient m code = v) ∧
    (∀ listing : List ImageFile,
      (∀ g ∈ imageGroups listing, (m.lookup g.1).isSome = true) →
      frame_files_images_strict m listing =
        Except.ok (frame_files_images_lenient m listing)) := by
  refine ⟨?_, ?_, ?_⟩
  · intro h
    constructor
    · simp [channel_name_strict, h]
    · simp [channel_name_lenient, h]
  · intro v h
    constructor
    · simp [channel_name_strict, h]
    · simp [channel_name_lenient, h]
  · intro listing h
    simp only [frame_files_images_strict, frame_files_images_lenient]
    exact mapExcept_strict_eq_map_lenient m (imageGroups listing) h

/-- Witness for C6: with mapping `{"111": "Channel A"}`, the missing code
`999` raises a KeyError in strict mode and becomes `Unknown_999` in
lenient mode, the present code `111` resolves identically, and on a
fully-mapped directory the two assemblers agree. -/
theorem c6_missing_mapping_policy_witness :
    (List.lookup "999" [("111", "Channel A")] = none ∧
      channel_name_strict [("111", "Channel A")] "999" =
        Except.error ("KeyError: " ++ "999") ∧
      channel_name_lenient [("111", "Channel A")] "999" = "Unknown_" ++ "999") ∧
    (List.lookup "111" [("111", "Channel A")] = some "Channel A" ∧
      channel_name_strict [("111", "Channel A")] "111" = Except.ok "Channel A" ∧
      channel_name_lenient [("111", "Channel A")] "111" = "Channel A") ∧
    frame_files_images_strict [("111", "Channel A")]
        [{ name := "A_111_ZS000_.tif", data := [[8]] }] =
      Except.ok (frame_files_images_lenient [("111", "Channel A")]
        [{ name := "A_111_ZS000_.tif", data := [[8]] }]) := by
  refine ⟨⟨by decide, (c6_missing_mapping_policy [("111", "Channel A")] "999").1 (by decide)⟩,
    ⟨by decide, (c6_missing_mapping_policy [("111", "Channel A")] "111").2.1 "Channel A"
      (by decide)⟩,
    (c6_missing_mapping_policy [("111", "Channel A")] "111").2.2
      [{ name := "A_111_ZS000_.tif", data := [[8]] }] (by decide)⟩

/-- **C8.** In every store a `tiff_to_zarr` call writes, every child group
under `images` and under `labels` carries a `units` attribute equal to the
literal "micrometers" and a `multiscales` attribute describing exactly one
dataset at path "0" whose scale coordinate transformation equals the
scaling triple values in (Z, Y, X) order, with three spatial axes named z,
y, x each tagged with unit "micrometer"; the group holds a single dataset
at path "0" — no further resolution levels are generated. -/
theorem c8_zarr_group_metadata (m : List (String × String)) (il : List ImageFile)
    (ll : Option (List LabelFile)) (z y x : ℚ) (st : ZStore)
    (hst : tiff_to_zarr_model m il ll [z, y, x] = Except.ok st)
    (g : ZGroup) (hg : g ∈ st.images ++ (st.labels.getD [])) :
    g.attrs.units = "micrometers" ∧
    g.attrs.multiscales =
      [{ datasets :=
           [{ path := "0",
              coordinateTransformations := [{ type := "scale", scale := [z, y, x] }] }],
         axes :=
           [{ name := "z", unit := "micrometer", type := "space" },
            { name := "y", unit := "micrometer", type := "space" },
            { name := "x", unit := "micrometer", type := "space" }] }] ∧
    g.datasets.map ZDataset.path = ["0"] := by
  cases hfz : frame_zstacks_images_strict m il with
  | error e =>
    rw [tiff_to_zarr_model, hfz] at hst
    simp [Except.map] at hst
  | ok imgs =>
    rw [tiff_to_zarr_model, hfz] at hst
    simp only [Except.map] at hst
    have hst' := Except.ok.inj hst
    subst hst'
    rcases List.mem_append.mp hg with h1 | h2
    · obtain ⟨p, hp, rfl⟩ := List.mem_map.mp h1
      exact ⟨rfl, rfl, rfl⟩
    · cases ll with
      | none => simp at h2
      | some l =>
        simp only [Option.map_some', Option.getD_some] at h2
        obtain ⟨p, hp, rfl⟩ := List.mem_map.mp h2
        exact ⟨rfl, rfl, rfl⟩

def c8w_store : ZStore :=
  { images := [writeChannelGroup [5, 6, 7] "Chan B" [[[1]]]],
    labels := some [writeChannelGroup [5, 6, 7] "organoid (labels)" [[[2]]]] }

/-- Witness for C8 at a concrete conversion with one image channel and one
label compartment. -/
theorem c8_zarr_group_metadata_witness :
    tiff_to_zarr_model [("222", "Chan B")]
        [{ name := "B_222_ZS000_.tif", data := [[1]] }]
        (some [{ name := "organoid_m.tiff", data := [[[2]]] }]) [5, 6, 7] =
      Except.ok c8w_store ∧
    writeChannelGroup [5, 6, 7] "Chan B" [[[1]]] ∈
      c8w_store.images ++ (c8w_store.labels.getD []) ∧
    ((writeChannelGroup [5, 6, 7] "Chan B" [[[1]]]).attrs.units = "micrometers" ∧
     (writeChannelGroup [5, 6, 7] "Chan B" [[[1]]]).attrs.multiscales =
       [{ datasets :=
            [{ path := "0",
               coordinateTransformations :=
                 [{ type := "scale", scale := [5, 6, 7] }] }],
          axes :=
            [{ name := "z", unit := "micrometer", type := "space" },
             { name := "y", unit := "micrometer", type := "space" },
             { name := "x", unit := "micrometer", type := "space" }] }] ∧
     (writeChannelGroup [5, 6, 7] "Chan B" [[[1]]]).datasets.map ZDataset.path =
       ["0"]) :=
  ⟨by decide, by decide,
   c8_zarr_group_metadata [("222", "Chan B")]
     [{ name := "B_222_ZS000_.tif", data := [[1]] }]
     (some [{ name := "organoid_m.tiff", data := [[[2]]] }]) 5 6 7 c8w_store
     (by decide) _ (by decide)⟩

/-- **C10.** Every child group the zarr serializer creates under `labels`
is named by the first underscore-delimited token of its file
(extension-stripped via `pathlib.Path(...).stem`) followed by the literal
suffix " (labels)"; in particular a label file `compartment_mask.tiff`
yields the group name "compartment (labels)". -/
theorem c10_zarr_label_group_naming :
    (∀ (ll : List LabelFile) (p : String × LabelFile),
      p ∈ frame_files_labels_zarr ll →
      ∃ f ∈ ll, p.1 = stem (token0 f.name) ++ " (labels)") ∧
    (frame_files_labels_zarr
        [{ name := "compartment_mask.tiff", data := [[[7]]] }]).map Prod.fst =
      ["compartment (labels)"] := by
  constructor
  · intro ll p hp
    simp only [frame_files_labels_zarr, labelGroupsZarr] at hp
    rw [groupByKey_eq_of_sorted (fun f : LabelFile => token0 f.name) _
        (sortByStringKey_sorted _ _)] at hp
    obtain ⟨a, ha, hpa⟩ := List.mem_filterMap.mp hp
    obtain ⟨t, ht, rfl⟩ := List.mem_map.mp ha
    obtain ⟨f, hf, hpf⟩ := Option.map_eq_some'.mp hpa
    have hfm := List.mem_of_mem_head? hf
    have hfl := List.mem_filter.mp hfm
    have hft : token0 f.name = t := by
      have hb := hfl.2
      rwa [beq_iff_eq] at hb
    refine ⟨f, (sortByStringKey_perm _ ll).subset hfl.1, ?_⟩
    rw [← hpf, hft]
  · decide

/-- Witness for C10 at a concrete label listing. -/
theorem c10_zarr_label_group_naming_witness :
    (("organoid (labels)", ({ name := "organoid_mask.tiff", data := [[[3]]] } : LabelFile)) ∈
      frame_files_labels_zarr [{ name := "organoid_mask.tiff", data := [[[3]]] }]) ∧
    ∃ f ∈ [({ name := "organoid_mask.tiff", data := [[[3]]] } : LabelFile)],
      ("organoid (labels)",
        ({ name := "organoid_mask.tiff", data := [[[3]]] } : LabelFile)).1 =
        stem (token0 f.name) ++ " (labels)" :=
  ⟨by decide,
   c10_zarr_label_group_naming.1 [{ name := "organoid_mask.tiff", data := [[[3]]] }]
     ("organoid (labels)", { name := "organoid_mask.tiff", data := [[[3]]] })
     (by decide)⟩
